import Mathlib

/-!
Verification of the font-sync reconciliation core against its sources.

The definitions below are shallow embeddings of the Python sources:
`src/utils.py`, `src/cache.py`, `src/font_manager.py`, `src/config.py`
and `src/commands/sync.py`.  Machine integers are modelled as `Nat`,
floating-point quantities (megabytes, timestamps) as `ℚ`, Python dicts
as association lists with insertion order, and fallible operations as
`Except`.
-/

namespace FontSync

/-! ## Python dict model: association lists keyed by a decidable type -/

def lookupA {κ α : Type} [DecidableEq κ] (k : κ) : List (κ × α) → Option α
  | [] => none
  | (k2, v) :: rest => if k2 = k then some v else lookupA k rest

/-- `d[k] = v` on a Python dict: overwrite in place when the key is
present (insertion order kept), append otherwise. -/
def upsertA {κ α : Type} [DecidableEq κ] (k : κ) (v : α) (l : List (κ × α)) :
    List (κ × α) :=
  if (lookupA k l).isSome then
    l.map (fun p => if p.1 = k then (k, v) else p)
  else
    l ++ [(k, v)]

theorem lookupA_map_overwrite {κ α : Type} [DecidableEq κ] (k : κ) (v : α)
    (l : List (κ × α)) (hsome : (lookupA k l).isSome = true) :
    lookupA k (l.map (fun p => if p.1 = k then (k, v) else p)) = some v := by
  induction l with
  | nil => simp [lookupA] at hsome
  | cons p rest ih =>
    by_cases h : p.1 = k
    · rw [List.map_cons, if_pos h]
      simp [lookupA]
    · rw [List.map_cons, if_neg h]
      rw [lookupA, if_neg h] at hsome ⊢
      exact ih hsome

theorem lookupA_map_overwrite_other {κ α : Type} [DecidableEq κ] (k k2 : κ)
    (v : α) (l : List (κ × α)) (hne : k2 ≠ k) :
    lookupA k2 (l.map (fun p => if p.1 = k then (k, v) else p)) =
      lookupA k2 l := by
  induction l with
  | nil => simp [lookupA]
  | cons p rest ih =>
    by_cases h : p.1 = k
    · rw [List.map_cons, if_pos h]
      rw [lookupA, lookupA, ih, if_neg (fun hk : k = k2 => hne hk.symm),
        if_neg (fun hk2 : p.1 = k2 => hne (hk2 ▸ h))]
    · rw [List.map_cons, if_neg h]
      rw [lookupA, lookupA, ih]

theorem lookupA_append {κ α : Type} [DecidableEq κ] (k : κ)
    (l l2 : List (κ × α)) :
    lookupA k (l ++ l2) =
      (match lookupA k l with
       | some v => some v
       | none => lookupA k l2) := by
  induction l with
  | nil => simp [lookupA]
  | cons p rest ih =>
    rw [List.cons_append, lookupA, lookupA]
    by_cases h : p.1 = k
    · rw [if_pos h, if_pos h]
    · rw [if_neg h, if_neg h, ih]

theorem lookupA_upsertA_self {κ α : Type} [DecidableEq κ] (k : κ) (v : α)
    (l : List (κ × α)) : lookupA k (upsertA k v l) = some v := by
  unfold upsertA
  split
  · exact lookupA_map_overwrite k v l (by assumption)
  · rename_i h
    rw [lookupA_append k l [(k, v)]]
    cases hl : lookupA k l with
    | none => simp [lookupA]
    | some w => rw [hl] at h; simp at h

theorem lookupA_upsertA_other {κ α : Type} [DecidableEq κ] (k k2 : κ) (v : α)
    (l : List (κ × α)) (hne : k2 ≠ k) :
    lookupA k2 (upsertA k v l) = lookupA k2 l := by
  unfold upsertA
  split
  · exact lookupA_map_overwrite_other k k2 v l hne
  · rw [lookupA_append k2 l [(k, v)]]
    cases hl : lookupA k2 l with
    | none => simp [lookupA, if_neg (fun hk : k = k2 => hne (hk ▸ rfl))]
    | some w => rfl

/-! ## `get_safe_filename` (src/utils.py lines 211-234) -/

/-- The invalid character set of `get_safe_filename` and
`validate_font_file_advanced`. -/
def invalid_chars : List Char := ['/', '\\', ':', '*', '?', '"', '<', '>', '|']

/-- One `safe_name.replace(char, '_')` step over a character list. -/
def replaceChar (s : List Char) (c : Char) : List Char :=
  s.map (fun x => if x = c then '_' else x)

/-- The character set of `safe_name.strip('. ')`. -/
def strip_chars : List Char := ['.', ' ']

def lstripDotSpace (s : List Char) : List Char :=
  s.dropWhile (fun c => c ∈ strip_chars)

def rstripDotSpace (s : List Char) : List Char :=
  (s.reverse.dropWhile (fun c => c ∈ strip_chars)).reverse

/-- `get_safe_filename`: replace every invalid character by an
underscore, strip leading/trailing dots and spaces, fall back to
`unnamed_font` if the result is empty. -/
def get_safe_filename (filename : List Char) : List Char :=
  if rstripDotSpace (lstripDotSpace (invalid_chars.foldl replaceChar filename)) = []
  then String.toList "unnamed_font"
  else rstripDotSpace (lstripDotSpace (invalid_chars.foldl replaceChar filename))

theorem foldl_replaceChar_eq_map (cs : List Char) (h : '_' ∉ cs) :
    ∀ s : List Char, cs.foldl replaceChar s =
      s.map (fun x => if x ∈ cs then '_' else x) := by
  induction cs with
  | nil =>
    intro s
    simp [List.foldl]
  | cons c rest ih =>
    intro s
    have hrest : '_' ∉ rest := fun hc => h (List.mem_cons_of_mem _ hc)
    rw [List.foldl_cons, ih hrest (replaceChar s c)]
    unfold replaceChar
    rw [List.map_map]
    apply List.map_congr_left
    intro a _
    by_cases hac : a = c
    · subst hac
      simp only [Function.comp, if_pos rfl]
      have h2 : '_' ∉ rest := hrest
      simp [h2]
    · simp only [Function.comp, if_neg hac]
      by_cases har : a ∈ rest
      · simp [har, List.mem_cons]
      · simp [har, List.mem_cons, hac]

theorem mem_foldl_replaceChar (s : List Char) (x : Char)
    (hx : x ∈ invalid_chars.foldl replaceChar s) : x ∉ invalid_chars := by
  rw [foldl_replaceChar_eq_map invalid_chars (by decide) s] at hx
  rcases List.mem_map.mp hx with ⟨a, _, ha2⟩
  by_cases h : a ∈ invalid_chars
  · rw [if_pos h] at ha2
    subst ha2
    decide
  · rw [if_neg h] at ha2
    subst ha2
    exact h

theorem dropWhile_head_not {α : Type} (p : α → Bool) (l : List α) (c : α)
    (hc : (l.dropWhile p).head? = some c) : p c = false := by
  induction l with
  | nil => simp [List.dropWhile] at hc
  | cons a t ih =>
    rw [List.dropWhile_cons] at hc
    split at hc
    · exact ih hc
    · simp only [List.head?_cons, Option.some.injEq] at hc
      subst hc
      simp_all

theorem dropWhile_eq_self_of_head {α : Type} (p : α → Bool) (l : List α)
    (h : ∀ c, l.head? = some c → p c = false) : l.dropWhile p = l := by
  cases l with
  | nil => rfl
  | cons a t =>
    rw [List.dropWhile_cons, if_neg]
    simp [h a rfl]

theorem head?_rstripDotSpace (m : List Char) (h : rstripDotSpace m ≠ []) :
    (rstripDotSpace m).head? = m.head? := by
  cases m with
  | nil => simp [rstripDotSpace] at h
  | cons a rest =>
    unfold rstripDotSpace at h ⊢
    rw [List.reverse_cons, List.dropWhile_append] at h ⊢
    by_cases hemp :
        (rest.reverse.dropWhile (fun c => decide (c ∈ strip_chars))).isEmpty = true
    · rw [if_pos hemp] at h ⊢
      by_cases hpa : a ∈ strip_chars
      · simp [List.dropWhile_cons, hpa] at h
      · simp [List.dropWhile_cons, hpa]
    · rw [if_neg hemp] at h ⊢
      rw [List.reverse_append]
      simp

theorem getLast?_rstripDotSpace_not_strip (m : List Char) (c : Char)
    (h : (rstripDotSpace m).getLast? = some c) : c ∉ strip_chars := by
  unfold rstripDotSpace at h
  rw [List.getLast?_reverse] at h
  have hp := dropWhile_head_not (fun c => decide (c ∈ strip_chars)) m.reverse c h
  simpa using hp

theorem get_safe_filename_props (s : List Char) :
    get_safe_filename s ≠ [] ∧
    (∀ c ∈ get_safe_filename s, c ∉ invalid_chars) ∧
    (∀ c, (get_safe_filename s).head? = some c → c ∉ strip_chars) ∧
    (∀ c, (get_safe_filename s).getLast? = some c → c ∉ strip_chars) := by
  unfold get_safe_filename
  by_cases hempty :
      rstripDotSpace (lstripDotSpace (invalid_chars.foldl replaceChar s)) = []
  · rw [if_pos hempty]
    refine ⟨by decide, by decide, ?_, ?_⟩
    · intro c hc
      rw [show (String.toList "unnamed_font").head? = some 'u' from by decide] at hc
      injection hc with hcu
      subst hcu
      decide
    · intro c hc
      rw [show (String.toList "unnamed_font").getLast? = some 't' from by decide] at hc
      injection hc with hct
      subst hct
      decide
  · rw [if_neg hempty]
    refine ⟨hempty, ?_, ?_, ?_⟩
    · intro c hc
      apply mem_foldl_replaceChar s c
      have h1 : c ∈ lstripDotSpace (invalid_chars.foldl replaceChar s) := by
        unfold rstripDotSpace at hc
        have h2 := List.mem_reverse.mp hc
        have h3 := (List.dropWhile_suffix
          (fun c => decide (c ∈ strip_chars))).subset h2
        exact List.mem_reverse.mp h3
      exact (List.dropWhile_suffix (fun c => decide (c ∈ strip_chars))).subset h1
    · intro c hc
      rw [head?_rstripDotSpace _ hempty] at hc
      have hp := dropWhile_head_not (fun c => decide (c ∈ strip_chars)) _ c hc
      simpa using hp
    · intro c hc
      exact getLast?_rstripDotSpace_not_strip _ c hc

theorem get_safe_filename_idem (s : List Char) :
    get_safe_filename (get_safe_filename s) = get_safe_filename s := by
  obtain ⟨hne, hinv, hhead, hlast⟩ := get_safe_filename_props s
  have hrep : invalid_chars.foldl replaceChar (get_safe_filename s) =
      get_safe_filename s := by
    rw [foldl_replaceChar_eq_map invalid_chars (by decide)]
    have hcong : ∀ a ∈ get_safe_filename s,
        (if a ∈ invalid_chars then '_' else a) = id a :=
      fun a ha => if_neg (hinv a ha)
    rw [List.map_congr_left hcong, List.map_id]
  have hl : lstripDotSpace (get_safe_filename s) = get_safe_filename s := by
    unfold lstripDotSpace
    apply dropWhile_eq_self_of_head
    intro c hc
    simpa using hhead c hc
  have hr : rstripDotSpace (get_safe_filename s) = get_safe_filename s := by
    unfold rstripDotSpace
    rw [dropWhile_eq_self_of_head, List.reverse_reverse]
    intro c hc
    rw [List.head?_reverse] at hc
    simpa using hlast c hc
  rw [show get_safe_filename (get_safe_filename s) =
      (if rstripDotSpace (lstripDotSpace
          (invalid_chars.foldl replaceChar (get_safe_filename s))) = []
       then String.toList "unnamed_font"
       else rstripDotSpace (lstripDotSpace
          (invalid_chars.foldl replaceChar (get_safe_filename s)))) from rfl]
  rw [hrep, hl, hr, if_neg hne]

/-- Claim C9: `get_safe_filename` is idempotent, and for every input its
output is non-empty, contains none of the characters
`/ \ : * ? " < > |`, and neither starts nor ends with a dot or a
space. -/
theorem c9_sanitizer_idempotent (s : List Char) :
    get_safe_filename (get_safe_filename s) = get_safe_filename s ∧
    get_safe_filename s ≠ [] ∧
    (∀ c ∈ get_safe_filename s, c ∉ invalid_chars) ∧
    (∀ c, (get_safe_filename s).head? = some c → c ∉ strip_chars) ∧
    (∀ c, (get_safe_filename s).getLast? = some c → c ∉ strip_chars) :=
  ⟨get_safe_filename_idem s, (get_safe_filename_props s).1,
   (get_safe_filename_props s).2.1, (get_safe_filename_props s).2.2.1,
   (get_safe_filename_props s).2.2.2⟩

/-- Witness for C9 on the concrete input `a:b.` (sanitized to `a_b`). -/
theorem c9_sanitizer_idempotent_witness :
    get_safe_filename (get_safe_filename (String.toList "a:b.")) =
      get_safe_filename (String.toList "a:b.") ∧
    'a' ∉ invalid_chars ∧ 'a' ∉ strip_chars ∧ 'b' ∉ strip_chars :=
  ⟨(c9_sanitizer_idempotent (String.toList "a:b.")).1,
   (c9_sanitizer_idempotent (String.toList "a:b.")).2.2.1 'a' (by decide),
   (c9_sanitizer_idempotent (String.toList "a:b.")).2.2.2.1 'a' (by decide),
   (c9_sanitizer_idempotent (String.toList "a:b.")).2.2.2.2 'b' (by decide)⟩

/-! ## `retry_on_error` (src/utils.py lines 38-74)

A Python exception is modelled by a code together with the one bit the
decorator inspects: whether its type matches the configured exception
tuple (`except exceptions as e`).  An exception outside the tuple is not
caught by the `except` clause and propagates out of the loop at once.
The semantics of one decorated call is a function from the attempt index
to that attempt's outcome; the model returns the final outcome together
with the number of invocations of the wrapped function. -/

structure PyExc where
  inTuple : Bool
  code : Nat
deriving DecidableEq

def retryAux {α : Type} (attempts : Nat → Except PyExc α) :
    Nat → Nat → Except PyExc α × Nat
  | i, fuel =>
    match attempts i with
    | Except.ok v => (Except.ok v, i + 1)
    | Except.error e =>
      if e.inTuple then
        match fuel with
        | 0 => (Except.error e, i + 1)
        | Nat.succ f => retryAux attempts (i + 1) f
      else
        (Except.error e, i + 1)

/-- `retry_on_error(max_retries, ...)` applied to a call whose i-th
invocation behaves as `attempts i`: the loop runs for
`attempt in range(max_retries + 1)`, re-invoking only on exceptions
matching the tuple, re-raising on the last attempt. -/
def retry_on_error {α : Type} (max_retries : Nat)
    (attempts : Nat → Except PyExc α) : Except PyExc α × Nat :=
  retryAux attempts 0 max_retries

theorem retryAux_count_le {α : Type} (attempts : Nat → Except PyExc α) :
    ∀ fuel i, (retryAux attempts i fuel).2 ≤ i + fuel + 1 := by
  intro fuel
  induction fuel with
  | zero =>
    intro i
    unfold retryAux
    cases attempts i with
    | ok v => simp
    | error e =>
      by_cases h : e.inTuple
      · simp [h]
      · simp [h]
  | succ f ih =>
    intro i
    unfold retryAux
    cases attempts i with
    | ok v => simp
    | error e =>
      by_cases h : e.inTuple
      · simp only [h, if_true]
        have := ih (i + 1)
        omega
      · simp [h]

theorem retryAux_all_errors {α : Type} (attempts : Nat → Except PyExc α)
    (es : Nat → PyExc) :
    ∀ fuel i, (∀ j, j ≤ i + fuel → attempts j = Except.error (es j) ∧
        (es j).inTuple = true) →
      retryAux attempts i fuel = (Except.error (es (i + fuel)), i + fuel + 1) := by
  intro fuel
  induction fuel with
  | zero =>
    intro i h
    obtain ⟨h1, h2⟩ := h i (by omega)
    unfold retryAux
    rw [h1]
    simp [h2]
  | succ f ih =>
    intro i h
    obtain ⟨h1, h2⟩ := h i (by omega)
    unfold retryAux
    rw [h1]
    simp only [h2, if_true]
    have hidx : i + 1 + f = i + (f + 1) := by omega
    have hrec := ih (i + 1) (fun j hj => h j (by omega))
    rw [hrec, hidx]

theorem retryAux_first_ok {α : Type} (attempts : Nat → Except PyExc α) (v : α) :
    ∀ fuel i k, i ≤ k → k ≤ i + fuel →
      (∀ j, i ≤ j → j < k → ∃ ej, attempts j = Except.error ej ∧
        ej.inTuple = true) →
      attempts k = Except.ok v →
      retryAux attempts i fuel = (Except.ok v, k + 1) := by
  intro fuel
  induction fuel with
  | zero =>
    intro i k hik hki herr hok
    have : i = k := by omega
    subst this
    unfold retryAux
    rw [hok]
  | succ f ih =>
    intro i k hik hki herr hok
    by_cases hik2 : i = k
    · subst hik2
      unfold retryAux
      rw [hok]
    · obtain ⟨ei, hei1, hei2⟩ := herr i (le_refl i) (by omega)
      unfold retryAux
      rw [hei1]
      simp only [hei2, if_true]
      exact ih (i + 1) k (by omega) (by omega)
        (fun j hj1 hj2 => herr j (by omega) hj2) hok

/-- Claim C8: contract of the `retry_on_error` decorator: a non-tuple
exception on the first invocation propagates with exactly one
invocation; a first successful invocation returns its result with one
invocation; the total number of invocations never exceeds
`max_retries + 1`; if every attempt raises a tuple exception the final
attempt's exception is re-raised after `max_retries + 1` invocations;
and the first successful attempt's result is returned unchanged. -/
theorem c8_retry_contract {α : Type} (r : Nat) (a : Nat → Except PyExc α)
    (e : PyExc) (es : Nat → PyExc) (v : α) :
    (a 0 = Except.error e → e.inTuple = false →
      retry_on_error r a = (Except.error e, 1)) ∧
    (a 0 = Except.ok v → retry_on_error r a = (Except.ok v, 1)) ∧
    ((retry_on_error r a).2 ≤ r + 1) ∧
    ((∀ j, j ≤ r → a j = Except.error (es j) ∧ (es j).inTuple = true) →
      retry_on_error r a = (Except.error (es r), r + 1)) ∧
    (∀ k, k ≤ r →
      (∀ j, j < k → ∃ ej, a j = Except.error ej ∧ ej.inTuple = true) →
      a k = Except.ok v → retry_on_error r a = (Except.ok v, k + 1)) := by
  refine ⟨?_, ?_, ?_, ?_, ?_⟩
  · intro h1 h2
    unfold retry_on_error retryAux
    rw [h1]
    simp [h2]
  · intro h1
    unfold retry_on_error retryAux
    rw [h1]
  · have := retryAux_count_le a r 0
    unfold retry_on_error
    omega
  · intro h
    have := retryAux_all_errors a es r 0 (fun j hj => h j (by omega))
    unfold retry_on_error
    simpa using this
  · intro k hk herr hok
    exact retryAux_first_ok a v r 0 k (by omega) (by omega)
      (fun j _ hj2 => herr j hj2) hok

/-- Witness for C8 at `max_retries = 2` with concrete attempt traces. -/
theorem c8_retry_contract_witness :
    retry_on_error 2 (fun _ => Except.error (⟨false, 7⟩ : PyExc)) =
      ((Except.error (⟨false, 7⟩ : PyExc) : Except PyExc Nat), 1) ∧
    retry_on_error 2 (fun _ => (Except.ok 5 : Except PyExc Nat)) =
      (Except.ok 5, 1) ∧
    retry_on_error 2 (fun _ => Except.error (⟨true, 9⟩ : PyExc)) =
      ((Except.error (⟨true, 9⟩ : PyExc) : Except PyExc Nat), 3) ∧
    retry_on_error 2
        (fun i => if i < 1 then Except.error (⟨true, 9⟩ : PyExc)
                  else (Except.ok 5 : Except PyExc Nat)) =
      (Except.ok 5, 2) :=
  ⟨(c8_retry_contract 2 (fun _ => Except.error (⟨false, 7⟩ : PyExc))
      ⟨false, 7⟩ (fun _ => ⟨false, 7⟩) 0).1 rfl rfl,
   (c8_retry_contract 2 (fun _ => (Except.ok 5 : Except PyExc Nat))
      ⟨false, 7⟩ (fun _ => ⟨false, 7⟩) 5).2.1 rfl,
   (c8_retry_contract 2 (fun _ => Except.error (⟨true, 9⟩ : PyExc))
      ⟨true, 9⟩ (fun _ => ⟨true, 9⟩) 0).2.2.2.1
      (fun j _ => ⟨rfl, rfl⟩),
   (c8_retry_contract 2
      (fun i => if i < 1 then Except.error (⟨true, 9⟩ : PyExc)
                else (Except.ok 5 : Except PyExc Nat))
      ⟨true, 9⟩ (fun _ => ⟨true, 9⟩) 5).2.2.2.2 1 (by omega)
      (fun j hj => ⟨⟨true, 9⟩, by simp [hj], rfl⟩) (by simp)⟩

/-! ## `calculate_hash` (src/font_manager.py lines 132-183)

The decorator is `@retry_on_error(max_retries=3, delay=0.5)` with the
default exception tuple `(IOError, OSError, FileLockedError)`.  Every
exception the body can raise matches that tuple: `FileNotFoundError` is
a subclass of `OSError`, `IOError` is an alias of `OSError`, and
`FileLockedError` is listed explicitly — hence `inTuple := true` for
all three codes below. -/

/-- Exception codes raised by the body of `calculate_hash`:
0 = `FileNotFoundError`, 1 = `FileLockedError`, 2 = `IOError`. -/
def notFoundExc : PyExc := ⟨true, 0⟩

def fileLockedExc : PyExc := ⟨true, 1⟩

def ioReadExc : PyExc := ⟨true, 2⟩

/-- The filesystem facts one invocation of the body observes: the file
content (`none` when the path does not exist), a cached hash if the
cache holds a valid entry for the file, whether the file stays
lock-held past the 10 s wait, and whether the chunked read raises. -/
structure HashWorld where
  fileBytes : Option (List Nat)
  cachedHash : Option String
  lockedForever : Bool
  readFails : Bool

/-- One invocation of the body of `calculate_hash`: existence check,
cache lookup, lock check with bounded wait, chunked SHA-256 read
(the digest itself is the parameter `hashFn`). -/
def calculate_hash_once (hashFn : List Nat → String) (w : HashWorld) :
    Except PyExc String :=
  match w.fileBytes with
  | none => Except.error notFoundExc
  | some bytes =>
    match w.cachedHash with
    | some h => Except.ok h
    | none =>
      if w.lockedForever then Except.error fileLockedExc
      else if w.readFails then Except.error ioReadExc
      else Except.ok (hashFn bytes)

/-- `calculate_hash` as deployed: the body wrapped in
`retry_on_error(max_retries=3)`; the second component counts the
invocations of the body. -/
def calculate_hash (hashFn : List Nat → String) (w : HashWorld) :
    Except PyExc String × Nat :=
  retry_on_error 3 (fun _ => calculate_hash_once hashFn w)

/-- Counterexample for C4: fingerprinting a path that does not exist
makes 4 invocations of the body (1 initial + 3 retries), not 1 and not
at most 3, because `FileNotFoundError` is a subclass of `OSError`,
which is in the retry tuple. -/
theorem c4_fingerprint_retry_counterexample :
    calculate_hash (fun _ => "h") ⟨none, none, false, false⟩ =
      (Except.error notFoundExc, 4) ∧
    (calculate_hash (fun _ => "h") ⟨none, none, false, false⟩).2 ≠ 1 ∧
    ¬ (calculate_hash (fun _ => "h") ⟨none, none, false, false⟩).2 ≤ 3 := by
  refine ⟨?_, by decide, by decide⟩
  rfl

/-- Claim C4 (amended): the retry policy wrapped around the fingerprint
makes at most `3 + 1 = 4` invocations of the body, and since the retry
tuple `(IOError, OSError, FileLockedError)` contains
`FileNotFoundError` as a subclass of `OSError`, a non-existent path is
retried like a transient failure: fingerprinting it fails with
`NotFound` only after exactly 4 invocations. -/
theorem c4_fingerprint_retry_amended (hashFn : List Nat → String)
    (w : HashWorld) :
    ((calculate_hash hashFn w).2 ≤ 4) ∧
    (w.fileBytes = none →
      calculate_hash hashFn w = (Except.error notFoundExc, 4)) := by
  constructor
  · have := retryAux_count_le (fun _ => calculate_hash_once hashFn w) 3 0
    unfold calculate_hash retry_on_error
    omega
  · intro hmiss
    have hbody : ∀ j : Nat, (fun _ => calculate_hash_once hashFn w) j =
        Except.error notFoundExc ∧ (notFoundExc).inTuple = true := by
      intro j
      constructor
      · unfold calculate_hash_once
        rw [hmiss]
      · rfl
    have := retryAux_all_errors (fun _ => calculate_hash_once hashFn w)
      (fun _ => notFoundExc) 3 0 (fun j _ => hbody j)
    unfold calculate_hash retry_on_error
    simpa using this

/-- Witness for C4 (amended) at the concrete missing-path world. -/
theorem c4_fingerprint_retry_amended_witness :
    calculate_hash (fun _ => "h") ⟨none, none, false, false⟩ =
      (Except.error notFoundExc, 4) :=
  (c4_fingerprint_retry_amended (fun _ => "h")
    ⟨none, none, false, false⟩).2 rfl

/-! ## `FontCache` (src/cache.py)

`_get_cache_key` hashes the string `f"{path}:{size}:{mtime}"` with MD5
(falling back to the path alone when `stat` fails); the digest is
modelled injectively by the data it is computed from.  Timestamps are
epoch seconds in `ℚ`; `_is_cache_valid` compares
`datetime.now() < fromtimestamp(ts) + timedelta(hours=ttl_hours)`,
i.e. `now < ts + ttl_hours * 3600` in seconds. -/

inductive CacheKey
  | statKey (path : String) (size : Nat) (mtime : ℚ)
  | pathKey (path : String)
deriving DecidableEq

def get_cache_key (path : String) (stat : Option (Nat × ℚ)) : CacheKey :=
  match stat with
  | some (size, mtime) => CacheKey.statKey path size mtime
  | none => CacheKey.pathKey path

/-- One cache entry: `{'hash' | 'info': value, 'timestamp': ts,
'path': path}`. -/
structure TimedEntry where
  value : String
  timestamp : ℚ
  path : String
deriving DecidableEq

/-- The state of a `FontCache`: the in-process memo and the two
persisted documents. -/
structure FontCache where
  ttl_hours : Int
  memory : List (CacheKey × TimedEntry)
  hashStore : List (CacheKey × TimedEntry)
  infoStore : List (CacheKey × TimedEntry)
deriving DecidableEq

/-- `_is_cache_valid`: a TTL ≤ 0 never expires; otherwise the entry is
valid iff now is strictly before timestamp + ttl. -/
def is_cache_valid (ttl_hours : Int) (now ts : ℚ) : Bool :=
  if ttl_hours ≤ 0 then true
  else decide (now < ts + (ttl_hours : ℚ) * 3600)

/-- The file-cache fallback of `get_hash`: a valid persisted entry is
promoted into the in-process memo. -/
def get_hash_from_store (c : FontCache) (now : ℚ) (k : CacheKey) :
    FontCache × Option String :=
  match lookupA k c.hashStore with
  | some e =>
    if is_cache_valid c.ttl_hours now e.timestamp then
      ({ c with memory := upsertA k e c.memory }, some e.value)
    else (c, none)
  | none => (c, none)

/-- `get_hash`: consult the in-process memo first; an invalid or
missing memo entry falls through to the persisted document. -/
def get_hash (c : FontCache) (now : ℚ) (k : CacheKey) :
    FontCache × Option String :=
  match lookupA k c.memory with
  | some e =>
    if is_cache_valid c.ttl_hours now e.timestamp then (c, some e.value)
    else get_hash_from_store c now k
  | none => get_hash_from_store c now k

/-- `set_hash`: store `{hash, timestamp := now, path}` in the memo and
in the persisted document (the best-effort save is modelled as
succeeding; a swallowed failure leaves the persisted tier stale, which
the claims do not touch). -/
def set_hash (c : FontCache) (now : ℚ) (k : CacheKey) (h path : String) :
    FontCache :=
  { c with memory := upsertA k ⟨h, now, path⟩ c.memory,
           hashStore := upsertA k ⟨h, now, path⟩ c.hashStore }

/-- `cleanup_expired`: rewrite each persisted store keeping only the
valid entries (the file is only rewritten when something was dropped),
return the two removal counts, and purge the in-process memo. -/
def cleanup_expired (c : FontCache) (now : ℚ) : FontCache × (Nat × Nat) :=
  let hash_removed :=
    c.hashStore.countP (fun p => !(is_cache_valid c.ttl_hours now p.2.timestamp))
  let valid_hash_cache :=
    c.hashStore.filter (fun p => is_cache_valid c.ttl_hours now p.2.timestamp)
  let newHashStore := if 0 < hash_removed then valid_hash_cache else c.hashStore
  let info_removed :=
    c.infoStore.countP (fun p => !(is_cache_valid c.ttl_hours now p.2.timestamp))
  let valid_info_cache :=
    c.infoStore.filter (fun p => is_cache_valid c.ttl_hours now p.2.timestamp)
  let newInfoStore := if 0 < info_removed then valid_info_cache else c.infoStore
  let newMemory :=
    c.memory.filter (fun p => is_cache_valid c.ttl_hours now p.2.timestamp)
  ({ c with hashStore := newHashStore, infoStore := newInfoStore,
            memory := newMemory },
   (hash_removed, info_removed))

theorem is_cache_valid_at_put (ttl : Int) (now : ℚ) :
    is_cache_valid ttl now now = true := by
  unfold is_cache_valid
  by_cases h : ttl ≤ 0
  · rw [if_pos h]
  · rw [if_neg h]
    have hpos : (0 : ℚ) < (ttl : ℚ) * 3600 := by
      apply mul_pos
      · exact_mod_cast lt_of_not_le h
      · norm_num
    simp only [decide_eq_true_eq]
    linarith

theorem is_cache_valid_expired (ttl : Int) (now ts : ℚ) (httl : 0 < ttl)
    (hnow : ts + (ttl : ℚ) * 3600 ≤ now) :
    is_cache_valid ttl now ts = false := by
  unfold is_cache_valid
  rw [if_neg (by omega)]
  simp only [decide_eq_false_iff_not, not_lt]
  exact hnow

/-- Claim C5: an entry is valid iff `now < timestamp + ttl` (with
`ttl ≤ 0` meaning valid forever); `get` right after `put` returns the
stored hash; once the TTL has elapsed since the entry's timestamp,
`get` returns absent. -/
theorem c5_cache_ttl_coherence (c : FontCache) (now later : ℚ)
    (k : CacheKey) (h path : String) (ts : ℚ) :
    (is_cache_valid c.ttl_hours now ts = true ↔
      (c.ttl_hours ≤ 0 ∨ now < ts + (c.ttl_hours : ℚ) * 3600)) ∧
    ((get_hash (set_hash c now k h path) now k).2 = some h) ∧
    (0 < c.ttl_hours → now + (c.ttl_hours : ℚ) * 3600 ≤ later →
      (get_hash (set_hash c now k h path) later k).2 = none) := by
  refine ⟨?_, ?_, ?_⟩
  · unfold is_cache_valid
    by_cases httl : c.ttl_hours ≤ 0
    · simp [httl]
    · simp [httl]
  · unfold get_hash set_hash
    simp only [lookupA_upsertA_self]
    rw [is_cache_valid_at_put]
    simp
  · intro httl hlater
    have hexp := is_cache_valid_expired c.ttl_hours later now httl hlater
    unfold get_hash set_hash
    simp only [lookupA_upsertA_self]
    rw [hexp]
    unfold get_hash_from_store
    simp only [lookupA_upsertA_self]
    rw [hexp]
    simp

/-- Witness for C5: ttl 1 h, put at t = 0, expired read at t = 3600. -/
theorem c5_cache_ttl_coherence_witness :
    (get_hash (set_hash ⟨1, [], [], []⟩ 0 (CacheKey.pathKey "p") "h" "p")
      0 (CacheKey.pathKey "p")).2 = some "h" ∧
    (get_hash (set_hash ⟨1, [], [], []⟩ 0 (CacheKey.pathKey "p") "h" "p")
      3600 (CacheKey.pathKey "p")).2 = none ∧
    is_cache_valid 1 0 0 = true :=
  ⟨(c5_cache_ttl_coherence ⟨1, [], [], []⟩ 0 3600
      (CacheKey.pathKey "p") "h" "p" 0).2.1,
   (c5_cache_ttl_coherence ⟨1, [], [], []⟩ 0 3600
      (CacheKey.pathKey "p") "h" "p" 0).2.2 (by norm_num) (by norm_num),
   (c5_cache_ttl_coherence ⟨1, [], [], []⟩ 0 3600
      (CacheKey.pathKey "p") "h" "p" 0).1.mpr (by norm_num)⟩

theorem keep_eq_filter {α : Type} (q : α → Bool) (l : List α) :
    (if 0 < l.countP (fun a => !q a) then l.filter q else l) = l.filter q := by
  by_cases h : 0 < l.countP (fun a => !q a)
  · rw [if_pos h]
  · rw [if_neg h]
    have h0 : l.countP (fun a => !q a) = 0 := by omega
    have hall := List.countP_eq_zero.mp h0
    symm
    exact List.filter_eq_self.mpr (fun a ha => by
      have := hall a ha
      simpa using this)

theorem length_filter_add_countP_not {α : Type} (q : α → Bool) (l : List α) :
    l.length = (l.filter q).length + l.countP (fun a => !q a) := by
  rw [List.length_eq_countP_add_countP q, List.countP_eq_length_filter]
  congr 1
  apply List.countP_congr
  intro a _
  by_cases h : q a
  · simp [h]
  · simp [h]

/-- Claim C10: `cleanup_expired` keeps exactly the valid entries in each
persisted store, the returned pair counts the dropped entries of each
store (so size before = size kept + count removed), the in-process memo
retains only valid entries, and a TTL ≤ 0 removes nothing and returns
`(0, 0)`. -/
theorem c10_cleanup_accounting (c : FontCache) (now : ℚ) :
    ((cleanup_expired c now).1.hashStore = c.hashStore.filter
      (fun p => is_cache_valid c.ttl_hours now p.2.timestamp)) ∧
    ((cleanup_expired c now).1.infoStore = c.infoStore.filter
      (fun p => is_cache_valid c.ttl_hours now p.2.timestamp)) ∧
    (c.hashStore.length =
      (cleanup_expired c now).1.hashStore.length + (cleanup_expired c now).2.1) ∧
    (c.infoStore.length =
      (cleanup_expired c now).1.infoStore.length + (cleanup_expired c now).2.2) ∧
    ((cleanup_expired c now).1.memory = c.memory.filter
      (fun p => is_cache_valid c.ttl_hours now p.2.timestamp)) ∧
    (c.ttl_hours ≤ 0 → cleanup_expired c now = (c, (0, 0))) := by
  have hhash := keep_eq_filter
    (fun p : CacheKey × TimedEntry => is_cache_valid c.ttl_hours now p.2.timestamp)
    c.hashStore
  have hinfo := keep_eq_filter
    (fun p : CacheKey × TimedEntry => is_cache_valid c.ttl_hours now p.2.timestamp)
    c.infoStore
  refine ⟨?_, ?_, ?_, ?_, ?_, ?_⟩
  · simp only [cleanup_expired]
    exact hhash
  · simp only [cleanup_expired]
    exact hinfo
  · simp only [cleanup_expired, hhash]
    exact length_filter_add_countP_not _ c.hashStore
  · simp only [cleanup_expired, hinfo]
    exact length_filter_add_countP_not _ c.infoStore
  · simp only [cleanup_expired]
  · intro httl
    have hvalid : ∀ ts : ℚ, is_cache_valid c.ttl_hours now ts = true := by
      intro ts
      unfold is_cache_valid
      rw [if_pos httl]
    simp only [cleanup_expired, hvalid]
    simp [List.filter_eq_self.mpr]

/-- Witness for C10: a two-entry cache with ttl 0 is left untouched. -/
theorem c10_cleanup_accounting_witness :
    cleanup_expired
      ⟨0, [(CacheKey.pathKey "p", ⟨"h", 1, "p"⟩)],
          [(CacheKey.pathKey "p", ⟨"h", 1, "p"⟩)], []⟩ 99999 =
      (⟨0, [(CacheKey.pathKey "p", ⟨"h", 1, "p"⟩)],
           [(CacheKey.pathKey "p", ⟨"h", 1, "p"⟩)], []⟩, (0, 0)) :=
  (c10_cleanup_accounting
    ⟨0, [(CacheKey.pathKey "p", ⟨"h", 1, "p"⟩)],
        [(CacheKey.pathKey "p", ⟨"h", 1, "p"⟩)], []⟩ 99999).2.2.2.2.2
    (by norm_num)

/-! ## `validate_font_file_advanced` (src/utils.py lines 120-208) -/

/-- Python `round` to an integer: round-half-to-even. -/
def pyRoundInt (q : ℚ) : Int :=
  if q - Int.floor q < 1 / 2 then Int.floor q
  else if 1 / 2 < q - Int.floor q then Int.floor q + 1
  else if Int.floor q % 2 = 0 then Int.floor q else Int.floor q + 1

/-- Python `round(q, 2)`. -/
def round2 (q : ℚ) : ℚ := (pyRoundInt (q * 100) : ℚ) / 100

/-- Python `round(q, 1)`. -/
def round1 (q : ℚ) : ℚ := (pyRoundInt (q * 10) : ℚ) / 10

/-- What the filesystem reports about the path under validation. -/
structure FsFile where
  present : Bool
  isRegular : Bool
  sizeBytes : Nat
  fname : List Char
  suffix : List Char
  locked : Bool
  header : Option (List Nat)
deriving DecidableEq

inductive FontValidationError
  | missing
  | notAFile
  | badExtension
  | emptyFile
  | invalidCharName
deriving DecidableEq

structure ValidationResult where
  valid : Bool
  warnings : List String
  file_size_mb : ℚ
  is_locked : Bool
deriving DecidableEq

/-- `valid_extensions = ('.otf', '.ttf', '.OTF', '.TTF')`: the literal
four-element tuple the source checks membership in. -/
def valid_extensions : List (List Char) :=
  [String.toList ".otf", String.toList ".ttf",
   String.toList ".OTF", String.toList ".TTF"]

/-- The OTF/TTF magic numbers: `OTTO`, `\x00\x01\x00\x00`, `true`,
`typ1`. -/
def valid_headers : List (List Nat) :=
  [[0x4F, 0x54, 0x54, 0x4F], [0x00, 0x01, 0x00, 0x00],
   [0x74, 0x72, 0x75, 0x65], [0x74, 0x79, 0x70, 0x31]]

def size_warning (f : FsFile) : List String :=
  if 100 < (f.sizeBytes : ℚ) / (1024 * 1024) then ["file_too_large"] else []

def lock_warning (f : FsFile) : List String :=
  if f.locked then ["file_in_use"] else []

def header_warning (f : FsFile) : List String :=
  match f.header with
  | none => ["header_read_failed"]
  | some h =>
    if valid_headers.any (fun vh => h.take vh.length = vh) then []
    else ["unknown_font_format"]

/-- `validate_font_file_advanced`: the checks in source order; warning
texts are abstracted to tags. -/
def validate_font_file_advanced (f : FsFile) :
    Except FontValidationError ValidationResult :=
  if f.present = false then Except.error FontValidationError.missing
  else if f.isRegular = false then Except.error FontValidationError.notAFile
  else if f.suffix ∉ valid_extensions then
    Except.error FontValidationError.badExtension
  else if f.sizeBytes = 0 then Except.error FontValidationError.emptyFile
  else if invalid_chars.any (fun ch => ch ∈ f.fname) then
    Except.error FontValidationError.invalidCharName
  else
    Except.ok
      { valid := true,
        warnings := size_warning f ++ lock_warning f ++ header_warning f,
        file_size_mb := round2 ((f.sizeBytes : ℚ) / (1024 * 1024)),
        is_locked := f.locked }

def lowerChars (s : List Char) : List Char := s.map Char.toLower

/-- A concrete existing, non-empty, regular `.Otf` file with a sound
OpenType header. -/
def mixedCaseOtf : FsFile :=
  { present := true, isRegular := true, sizeBytes := 10,
    fname := String.toList "A.Otf", suffix := String.toList ".Otf",
    locked := false, header := some [0x4F, 0x54, 0x54, 0x4F] }

/-- Counterexample for C6: the extension check is literal membership in
`('.otf', '.ttf', '.OTF', '.TTF')`, not case-insensitive; the existing,
non-empty, regular file `A.Otf` (lowercased extension `.otf`) is
rejected with an extension error. -/
theorem c6_validate_extension_counterexample :
    validate_font_file_advanced mixedCaseOtf =
      Except.error FontValidationError.badExtension ∧
    lowerChars mixedCaseOtf.suffix = String.toList ".otf" ∧
    mixedCaseOtf.present = true ∧ mixedCaseOtf.isRegular = true ∧
    mixedCaseOtf.sizeBytes ≠ 0 := by
  refine ⟨?_, by decide, rfl, rfl, by decide⟩
  rfl

/-- Claim C6 (amended): `validate_font_file_advanced` succeeds exactly
for an existing, regular, non-empty file whose extension is literally
one of `.otf`, `.ttf`, `.OTF`, `.TTF` and whose name contains no
invalid character; mixed-case extensions such as `.Otf` and names with
invalid characters fail with `FontValidation`. -/
theorem c6_validate_failure_conditions (f : FsFile) :
    (∃ r, validate_font_file_advanced f = Except.ok r) ↔
      (f.present = true ∧ f.isRegular = true ∧ f.suffix ∈ valid_extensions ∧
       f.sizeBytes ≠ 0 ∧ ∀ c ∈ f.fname, c ∉ invalid_chars) := by
  constructor
  · rintro ⟨r, hr⟩
    unfold validate_font_file_advanced at hr
    split_ifs at hr with h1 h2 h3 h4 h5
    refine ⟨by simpa using h1, by simpa using h2, by simpa using h3,
      h4, ?_⟩
    intro c hc hcinv
    exact h5 (List.any_eq_true.mpr ⟨c, hcinv, by simpa using hc⟩)
  · rintro ⟨h1, h2, h3, h4, h5⟩
    refine ⟨{ valid := true,
              warnings := size_warning f ++ lock_warning f ++ header_warning f,
              file_size_mb := round2 ((f.sizeBytes : ℚ) / (1024 * 1024)),
              is_locked := f.locked }, ?_⟩
    unfold validate_font_file_advanced
    rw [if_neg (by simp [h1]), if_neg (by simp [h2]),
      if_neg (by simp [h3]), if_neg h4, if_neg ?_]
    simp only [List.any_eq_true, not_exists, not_and]
    push_neg
    intro ch hch hmem
    exact absurd hch (h5 ch (by simpa using hmem))

/-- Witness for C6 (amended) at a concrete well-formed `.otf` file. -/
theorem c6_validate_failure_conditions_witness :
    ∃ r, validate_font_file_advanced
      { present := true, isRegular := true, sizeBytes := 10,
        fname := String.toList "A.otf", suffix := String.toList ".otf",
        locked := false, header := some [0x4F, 0x54, 0x54, 0x4F] } =
      Except.ok r :=
  (c6_validate_failure_conditions _).mpr
    ⟨rfl, rfl, by decide, by decide, by decide⟩

/-! ## `check_disk_space` (src/utils.py lines 237-266)

`os.statvfs` either raises (modelled as `none`) or yields the three
fields the function reads.  A filesystem reporting zero total size
makes the `used_percent` division raise `ZeroDivisionError`, which the
blanket `except` turns into the same assume-sufficient sentinel. -/

structure StatVfs where
  f_bavail : Nat
  f_frsize : Nat
  f_blocks : Nat
deriving DecidableEq

structure DiskInfo where
  free_mb : ℚ
  total_mb : ℚ
  used_percent : ℚ
  has_enough_space : Bool
deriving DecidableEq

def free_mb_of (st : StatVfs) : ℚ :=
  ((st.f_bavail * st.f_frsize : Nat) : ℚ) / (1024 * 1024)

def total_mb_of (st : StatVfs) : ℚ :=
  ((st.f_blocks * st.f_frsize : Nat) : ℚ) / (1024 * 1024)

def check_disk_space (stat : Option StatVfs) (required_mb : ℚ) : DiskInfo :=
  match stat with
  | none => ⟨-1, -1, -1, true⟩
  | some st =>
    if total_mb_of st = 0 then ⟨-1, -1, -1, true⟩
    else
      ⟨round2 (free_mb_of st), round2 (total_mb_of st),
       round1 ((total_mb_of st - free_mb_of st) / total_mb_of st * 100),
       decide (required_mb ≤ free_mb_of st)⟩

/-! ## `copy_font` (src/font_manager.py lines 185-253)

The destination filename is `get_safe_filename(src.name)` when
validating and the raw name otherwise; the claims concern the
destination *content*, modelled as the bytes present at the destination
path.  `shutil.copy2` opens the destination for writing and streams the
source into it in place — there is no temporary file and no rename — so
a copy that raises after writing `k` bytes leaves those `k` bytes at
the destination. -/

inductive CopyOutcome
  | success
  | failAfter (bytesWritten : Nat) (isPermission : Bool)
deriving DecidableEq

inductive CopyErr
  | srcMissing
  | validationFailed (e : FontValidationError)
  | fileLocked
  | notEnoughSpace
  | permission
  | ioFailure
deriving DecidableEq

structure CopyWorld where
  srcPresent : Bool
  srcBytes : List Nat
  srcFile : FsFile
  lockedForever : Bool
  diskStat : Option StatVfs
  dstPrior : Option (List Nat)
  outcome : CopyOutcome
deriving DecidableEq

instance {ε α : Type} [DecidableEq ε] [DecidableEq α] :
    DecidableEq (Except ε α) := fun a b =>
  match a, b with
  | Except.ok x, Except.ok y =>
    if h : x = y then isTrue (congrArg Except.ok h)
    else isFalse (fun hc => h (Except.ok.inj hc))
  | Except.error x, Except.error y =>
    if h : x = y then isTrue (congrArg Except.error h)
    else isFalse (fun hc => h (Except.error.inj hc))
  | Except.ok _, Except.error _ => isFalse (fun hc => Except.noConfusion hc)
  | Except.error _, Except.ok _ => isFalse (fun hc => Except.noConfusion hc)

/-- The outcome of one `copy_font` call: the returned value or
exception, the destination content afterwards, and whether the
`shutil.copy2` write phase was entered. -/
structure CopyResult where
  result : Except CopyErr (List Nat)
  dstAfter : Option (List Nat)
  attempted : Bool
deriving DecidableEq

/-- The tail of `copy_font` after the validation gate: the 1.1× disk
check, then the `shutil.copy2` in-place write. -/
def copy_font_write (w : CopyWorld) : CopyResult :=
  if (check_disk_space w.diskStat
        ((w.srcBytes.length : ℚ) / (1024 * 1024) * (11 / 10))).has_enough_space
      = false then
    ⟨Except.error CopyErr.notEnoughSpace, w.dstPrior, false⟩
  else
    match w.outcome with
    | CopyOutcome.success => ⟨Except.ok w.srcBytes, some w.srcBytes, true⟩
    | CopyOutcome.failAfter k isPerm =>
      ⟨Except.error (if isPerm then CopyErr.permission else CopyErr.ioFailure),
       some (w.srcBytes.take k), true⟩

def copy_font (w : CopyWorld) (validate : Bool) : CopyResult :=
  if w.srcPresent = false then
    ⟨Except.error CopyErr.srcMissing, w.dstPrior, false⟩
  else if validate then
    match validate_font_file_advanced w.srcFile with
    | Except.error e =>
      ⟨Except.error (CopyErr.validationFailed e), w.dstPrior, false⟩
    | Except.ok res =>
      if res.is_locked && w.lockedForever then
        ⟨Except.error CopyErr.fileLocked, w.dstPrior, false⟩
      else copy_font_write w
  else copy_font_write w

/-- A concrete copy that passes every precheck and fails mid-write. -/
def partialCopyWorld : CopyWorld :=
  { srcPresent := true, srcBytes := [1, 2, 3, 4],
    srcFile := { present := true, isRegular := true, sizeBytes := 4,
                 fname := String.toList "A.otf",
                 suffix := String.toList ".otf", locked := false,
                 header := some [0x4F, 0x54, 0x54, 0x4F] },
    lockedForever := false, diskStat := none, dstPrior := none,
    outcome := CopyOutcome.failAfter 2 false }

/-- Counterexample for C7: a copy that fails after its prechecks leaves
a partially written destination — here the 2-byte proper prefix of the
4 source bytes, which is neither the prior destination content (absent)
nor the complete copy. -/
theorem c7_copy_atomicity_counterexample :
    copy_font partialCopyWorld true =
      ⟨Except.error CopyErr.ioFailure, some [1, 2], true⟩ ∧
    (copy_font partialCopyWorld true).dstAfter ≠ partialCopyWorld.dstPrior ∧
    (copy_font partialCopyWorld true).dstAfter ≠
      some partialCopyWorld.srcBytes := by
  refine ⟨?_, by decide, by decide⟩
  rfl

theorem copy_font_prior_or_write (w : CopyWorld) (v : Bool) :
    ((copy_font w v).dstAfter = w.dstPrior ∧
      (copy_font w v).attempted = false) ∨
    copy_font w v = copy_font_write w := by
  unfold copy_font
  split_ifs with h1 h2
  · exact Or.inl ⟨rfl, rfl⟩
  · cases hval : validate_font_file_advanced w.srcFile with
    | error e =>
      exact Or.inl ⟨rfl, rfl⟩
    | ok res =>
      by_cases hlock : (res.is_locked && w.lockedForever) = true
      · refine Or.inl ⟨?_, ?_⟩ <;> simp only [hlock, if_true]
      · right
        simp only [if_neg hlock]
  · exact Or.inr rfl

theorem copy_font_write_cases (w : CopyWorld) :
    copy_font_write w =
      ⟨Except.error CopyErr.notEnoughSpace, w.dstPrior, false⟩ ∨
    (w.outcome = CopyOutcome.success ∧ copy_font_write w =
      ⟨Except.ok w.srcBytes, some w.srcBytes, true⟩) ∨
    (∃ k p, w.outcome = CopyOutcome.failAfter k p ∧ copy_font_write w =
      ⟨Except.error (if p then CopyErr.permission else CopyErr.ioFailure),
       some (w.srcBytes.take k), true⟩) := by
  unfold copy_font_write
  split_ifs with hd
  · exact Or.inl rfl
  · cases hout : w.outcome with
    | success => exact Or.inr (Or.inl ⟨rfl, rfl⟩)
    | failAfter k p => exact Or.inr (Or.inr ⟨k, p, rfl, rfl⟩)

/-- Claim C7 (amended): `copy_font` is not atomic.  A failure before
the write phase leaves the destination at its prior content and a
successful write leaves the complete source bytes, but a
`shutil.copy2` failure after writing `k` bytes leaves exactly that
`k`-byte partial prefix at the destination — the copy writes the
destination in place, with no create-then-rename step. -/
theorem c7_copy_partial_write (w : CopyWorld) (v : Bool) :
    ((copy_font w v).attempted = false →
      (copy_font w v).dstAfter = w.dstPrior) ∧
    ((copy_font w v).attempted = true → w.outcome = CopyOutcome.success →
      (copy_font w v).dstAfter = some w.srcBytes ∧
      (copy_font w v).result = Except.ok w.srcBytes) ∧
    (∀ k p, (copy_font w v).attempted = true →
      w.outcome = CopyOutcome.failAfter k p →
      (copy_font w v).dstAfter = some (w.srcBytes.take k)) := by
  rcases copy_font_prior_or_write w v with ⟨hdst, hatt⟩ | heq
  · refine ⟨fun _ => hdst, fun habs _ => ?_, fun k p habs _ => ?_⟩
    · rw [hatt] at habs
      exact absurd habs (by simp)
    · rw [hatt] at habs
      exact absurd habs (by simp)
  · rcases copy_font_write_cases w with hcase | ⟨hout, hcase⟩ |
      ⟨k0, p0, hout, hcase⟩
    · rw [heq, hcase]
      refine ⟨fun _ => rfl, fun habs _ => ?_, fun k p habs _ => ?_⟩
      · exact absurd habs (by simp)
      · exact absurd habs (by simp)
    · rw [heq, hcase]
      refine ⟨fun habs => ?_, fun _ _ => ⟨rfl, rfl⟩, fun k p _ hcontra => ?_⟩
      · exact absurd habs (by simp)
      · rw [hout] at hcontra
        exact absurd hcontra (by simp)
    · rw [heq, hcase]
      refine ⟨fun habs => ?_, fun _ hcontra => ?_, fun k p _ hkp => ?_⟩
      · exact absurd habs (by simp)
      · rw [hout] at hcontra
        exact absurd hcontra (by simp)
      · rw [hout] at hkp
        have hk : k0 = k := by
          injection hkp
        rw [hk]

/-- Witness for C7 (amended) at the concrete partially-failing copy
world and at the same world with a successful outcome. -/
theorem c7_copy_partial_write_witness :
    (copy_font partialCopyWorld true).dstAfter =
      some (partialCopyWorld.srcBytes.take 2) ∧
    (copy_font { partialCopyWorld with outcome := CopyOutcome.success }
      true).dstAfter = some partialCopyWorld.srcBytes :=
  ⟨(c7_copy_partial_write partialCopyWorld true).2.2 2 false (by decide) rfl,
   ((c7_copy_partial_write
      { partialCopyWorld with outcome := CopyOutcome.success } true).2.1
      (by decide) rfl).1⟩

/-! ## `sync_command` (src/commands/sync.py, JSON output mode)

The run is modelled as a function of the facts the command observes:
the config, the scan result (flattened batches of `FontFile`
candidates, each carrying the `get_font_info` fields the diff loop
reads and the outcome of `calculate_hash`), the `statvfs` result at the
install directory, the per-font `copy_font` outcome and the
`save_config` outcome.  `sync_folder` is an `Option`; Python also
treats an empty string as missing, which is folded into `none`.
The outcome records the JSON summary, the exit code, the persisted
manifest mapping afterwards, and the list of fonts for which a copy
was attempted (in order). -/

/-- `installed_fonts[name]`: `{"hash": ..., "installed_at": ...}`;
`hash` is read with `.get("hash")`, hence optional. -/
structure MEntry where
  hash : Option String
  installed_at : ℚ
deriving DecidableEq

/-- One scanned candidate as the diff loop sees it. -/
structure FontCand where
  name : String
  size_mb : ℚ
  is_locked : Bool
  is_syncing : Bool
  hashResult : Option String
deriving DecidableEq

inductive Action
  | install
  | update
  | upToDate
  | skip
deriving DecidableEq

/-- The dict `check_font_diff` builds per candidate:
`{"path", "action", "hash", "size_mb"}` (`skip` stands for the source's
`"none"`). -/
structure DiffEntry where
  font : FontCand
  action : Action
  hash : Option String
  size_mb : ℚ
deriving DecidableEq

/-- `check_font_diff` (sync.py lines 194-230): skip locked, syncing and
hash-failed candidates; then `install` when the name is absent from
`installed_fonts`, `update` when the stored hash differs from the fresh
hash, `up-to-date` otherwise. -/
def check_font_diff (installed : List (String × MEntry)) (f : FontCand) :
    DiffEntry :=
  if f.is_locked = true then ⟨f, Action.skip, none, f.size_mb⟩
  else if f.is_syncing = true then ⟨f, Action.skip, none, f.size_mb⟩
  else
    match f.hashResult with
    | none => ⟨f, Action.skip, none, f.size_mb⟩
    | some h =>
      match lookupA f.name installed with
      | none => ⟨f, Action.install, some h, f.size_mb⟩
      | some entry =>
        if entry.hash = some h then ⟨f, Action.upToDate, some h, f.size_mb⟩
        else ⟨f, Action.update, some h, f.size_mb⟩

def classify_font (installed : List (String × MEntry)) (f : FontCand) :
    Action :=
  (check_font_diff installed f).action

/-- The accumulating state of the result-classification loop
(sync.py lines 240-249): `fonts_to_sync`, `fonts_to_update`,
`fonts_up_to_date` and the running `total_size_mb`. -/
structure Classified where
  fonts_to_sync : List (FontCand × Option String)
  fonts_to_update : List (FontCand × Option String)
  fonts_up_to_date : List FontCand
  total_size_mb : ℚ
deriving DecidableEq

def classify_step (acc : Classified) (d : DiffEntry) : Classified :=
  match d.action with
  | Action.install =>
    { acc with fonts_to_sync := acc.fonts_to_sync ++ [(d.font, d.hash)],
               total_size_mb := acc.total_size_mb + d.size_mb }
  | Action.update =>
    { acc with fonts_to_update := acc.fonts_to_update ++ [(d.font, d.hash)],
               total_size_mb := acc.total_size_mb + d.size_mb }
  | Action.upToDate =>
    { acc with fonts_up_to_date := acc.fonts_up_to_date ++ [d.font] }
  | Action.skip => acc

def classify_fonts (installed : List (String × MEntry))
    (cands : List FontCand) : Classified :=
  (cands.map (check_font_diff installed)).foldl classify_step ⟨[], [], [], 0⟩

/-- Everything one `font-sync sync --json` run observes. -/
structure SyncWorld where
  config_exists : Bool
  config_load_ok : Bool
  sync_folder : Option String
  scan_ok : Bool
  source_fonts : List FontCand
  installed_fonts : List (String × MEntry)
  disk_stat : Option StatVfs
  copy_fails : String → Bool
  copy_err_msg : String → String
  save_ok : Bool

/-- `_output_json`'s payload:
`{success, added, updated, skipped, errors}`. -/
structure JsonResult where
  success : Bool
  added : Nat
  updated : Nat
  skipped : Nat
  errors : List String
deriving DecidableEq

/-- The observable outcome of a run: the JSON summary, the process exit
code, the persisted `installed_fonts` mapping afterwards, and the fonts
for which `copy_font` was invoked, in order. -/
structure SyncOutcome where
  output : JsonResult
  exit_code : Nat
  persisted : List (String × MEntry)
  attempted : List String
deriving DecidableEq

structure ApplyState where
  installed : List (String × MEntry)
  count : Nat
  errors : List String
  attempted : List String
deriving DecidableEq

/-- One iteration of the install/update loops (sync.py lines 302-325):
`copy_font` then `add_installed_font` on success, an
`"name: message"` error entry on failure, never aborting the loop. -/
def apply_one (w : SyncWorld) (now : ℚ) (st : ApplyState)
    (p : FontCand × Option String) : ApplyState :=
  if w.copy_fails p.1.name then
    { st with
      errors := st.errors ++ [p.1.name ++ ": " ++ w.copy_err_msg p.1.name],
      attempted := st.attempted ++ [p.1.name] }
  else
    { st with
      installed := upsertA p.1.name ⟨p.2, now⟩ st.installed,
      count := st.count + 1,
      attempted := st.attempted ++ [p.1.name] }

/-- The apply-and-save tail of the run (sync.py lines 293-389):
installs first, then updates, one `save_config`, then the JSON summary
with `success = len(errors) == 0`. -/
def sync_apply (w : SyncWorld) (now : ℚ) (cls : Classified) : SyncOutcome :=
  let st1 := cls.fonts_to_sync.foldl (apply_one w now)
    ⟨w.installed_fonts, 0, [], []⟩
  let st2 := cls.fonts_to_update.foldl (apply_one w now)
    ⟨st1.installed, 0, st1.errors, st1.attempted⟩
  let errs := if w.save_ok then st2.errors else st2.errors ++ ["save_failed"]
  ⟨⟨errs.isEmpty, st1.count, st2.count, cls.fonts_up_to_date.length, errs⟩,
   0, if w.save_ok then st2.installed else w.installed_fonts, st2.attempted⟩

def sync_command (w : SyncWorld) (now : ℚ) : SyncOutcome :=
  if w.config_exists = false then
    ⟨⟨false, 0, 0, 0, ["no_config"]⟩, 1, w.installed_fonts, []⟩
  else if w.config_load_ok = false then
    ⟨⟨false, 0, 0, 0, ["config_load_failed"]⟩, 1, w.installed_fonts, []⟩
  else if w.sync_folder.isNone then
    ⟨⟨false, 0, 0, 0, ["no_sync_folder"]⟩, 1, w.installed_fonts, []⟩
  else if w.scan_ok = false then
    ⟨⟨false, 0, 0, 0, ["scan_failed"]⟩, 1, w.installed_fonts, []⟩
  else if w.source_fonts = [] then
    ⟨⟨true, 0, 0, 0, []⟩, 0, w.installed_fonts, []⟩
  else if (classify_fonts w.installed_fonts w.source_fonts).fonts_to_sync.length
      + (classify_fonts w.installed_fonts w.source_fonts).fonts_to_update.length
      = 0 then
    ⟨⟨true, 0, 0,
      (classify_fonts w.installed_fonts w.source_fonts).fonts_up_to_date.length,
      []⟩, 0, w.installed_fonts, []⟩
  else if (check_disk_space w.disk_stat
      ((classify_fonts w.installed_fonts w.source_fonts).total_size_mb
        * (11 / 10))).has_enough_space = false then
    ⟨⟨false, 0, 0, 0, ["disk_insufficient"]⟩, 1, w.installed_fonts, []⟩
  else
    sync_apply w now (classify_fonts w.installed_fonts w.source_fonts)

/-- A run with one new font whose copy fails while the manifest save
succeeds. -/
def partialFailureWorld : SyncWorld :=
  { config_exists := true, config_load_ok := true,
    sync_folder := some "src", scan_ok := true,
    source_fonts := [⟨"X.otf", 1, false, false, some "h"⟩],
    installed_fonts := [], disk_stat := none,
    copy_fails := fun _ => true, copy_err_msg := fun _ => "copy failed",
    save_ok := true }

/-- Counterexample for C3: a run in which the only per-file copy fails
and the manifest save completes reports `success = false` (the summary
sets `success = len(errors) == 0`), not `success = true` as claimed. -/
theorem c3_partial_failure_counterexample :
    sync_command partialFailureWorld 100 =
      ⟨⟨false, 0, 0, 0, ["X.otf: copy failed"]⟩, 0, [], ["X.otf"]⟩ ∧
    partialFailureWorld.save_ok = true ∧
    (sync_command partialFailureWorld 100).output.errors ≠ [] ∧
    (sync_command partialFailureWorld 100).output.success = false := by
  refine ⟨rfl, rfl, by decide, rfl⟩

/-- Claim C3 (amended): the machine-readable summary reports
`success = true` exactly when the error list is empty — in every run,
including those whose per-file copies fail while the manifest save
completes (the batch still continues past per-file failures, the copies
already applied and the manifest save still take effect, but the run is
reported as failed); the precondition-failure summaries (missing
config, missing sync folder, scan failure, insufficient disk space) all
carry a non-empty error list and so also report `success = false`. -/
theorem c3_success_iff_no_errors (w : SyncWorld) (now : ℚ) :
    (sync_command w now).output.success =
      (sync_command w now).output.errors.isEmpty := by
  unfold sync_command
  split_ifs <;> rfl

/-- The spec's concrete scenario: `A.otf` new, `B.ttf` hash equal to
its manifest entry, `C.otf` hash differing from its manifest entry. -/
def scenarioManifest : List (String × MEntry) :=
  [("B.ttf", ⟨some "hB", 5⟩), ("C.otf", ⟨some "hC0", 6⟩)]

def scenarioWorld : SyncWorld :=
  { config_exists := true, config_load_ok := true,
    sync_folder := some "src", scan_ok := true,
    source_fonts := [⟨"A.otf", 1, false, false, some "hA"⟩,
                     ⟨"B.ttf", 2, false, false, some "hB"⟩,
                     ⟨"C.otf", 3, false, false, some "hC1"⟩],
    installed_fonts := scenarioManifest, disk_stat := none,
    copy_fails := fun _ => false, copy_err_msg := fun _ => "",
    save_ok := true }

/-- Claim C1: a candidate with a successful fingerprint that is neither
locked nor cloud-syncing is classified `install` iff its name is absent
from the manifest, `update` iff present with a stored hash different
from the fresh hash, and `up-to-date` otherwise; and the A/B/C scenario
run reports `added=1, updated=1, skipped=1` and afterwards the manifest
holds new hash/timestamp entries for A and C while B's entry is
unchanged. -/
theorem c1_reconciliation_classification (installed : List (String × MEntry))
    (f : FontCand) (h : String) (hh : f.hashResult = some h)
    (hlock : f.is_locked = false) (hsync : f.is_syncing = false) :
    ((classify_font installed f = Action.install ↔
        lookupA f.name installed = none) ∧
     (classify_font installed f = Action.update ↔
        ∃ e, lookupA f.name installed = some e ∧ e.hash ≠ some h) ∧
     (classify_font installed f = Action.upToDate ↔
        ∃ e, lookupA f.name installed = some e ∧ e.hash = some h)) ∧
    sync_command scenarioWorld 100 =
      ⟨⟨true, 1, 1, 1, []⟩, 0,
       [("B.ttf", ⟨some "hB", 5⟩), ("C.otf", ⟨some "hC1", 100⟩),
        ("A.otf", ⟨some "hA", 100⟩)], ["A.otf", "C.otf"]⟩ := by
  constructor
  · unfold classify_font check_font_diff
    rw [hlock, hsync, hh]
    simp only [Bool.false_eq_true, if_false]
    cases hl : lookupA f.name installed with
    | none => refine ⟨?_, ?_, ?_⟩ <;> simp
    | some entry =>
      by_cases he : entry.hash = some h
      · refine ⟨?_, ?_, ?_⟩ <;> simp [he]
      · refine ⟨?_, ?_, ?_⟩ <;> simp [he]
  · rfl

/-- Witness for C1 at a concrete unlocked candidate with a computed
hash absent from an empty manifest. -/
theorem c1_reconciliation_classification_witness :
    classify_font [] ⟨"A.otf", 1, false, false, some "hA"⟩ =
      Action.install :=
  ((c1_reconciliation_classification []
      ⟨"A.otf", 1, false, false, some "hA"⟩ "hA" rfl rfl rfl).1.1).mpr rfl

def sizes_sum (l : List (FontCand × Option String)) : ℚ :=
  (l.map (fun p => p.1.size_mb)).sum

theorem check_font_diff_size (installed : List (String × MEntry))
    (f : FontCand) :
    (check_font_diff installed f).size_mb = f.size_mb ∧
    (check_font_diff installed f).font = f := by
  by_cases h1 : f.is_locked = true
  · simp [check_font_diff, h1]
  · by_cases h2 : f.is_syncing = true
    · simp [check_font_diff, h1, h2]
    · cases hh : f.hashResult with
      | none => simp [check_font_diff, h1, h2, hh]
      | some v =>
        cases hl : lookupA f.name installed with
        | none => simp [check_font_diff, h1, h2, hh, hl]
        | some e =>
          by_cases he : e.hash = some v <;>
            simp [check_font_diff, h1, h2, hh, hl, he]

theorem foldl_classify_total (ds : List DiffEntry)
    (hds : ∀ d ∈ ds, d.size_mb = d.font.size_mb) :
    ∀ acc : Classified,
      acc.total_size_mb =
        sizes_sum acc.fonts_to_sync + sizes_sum acc.fonts_to_update →
      (ds.foldl classify_step acc).total_size_mb =
        sizes_sum (ds.foldl classify_step acc).fonts_to_sync +
        sizes_sum (ds.foldl classify_step acc).fonts_to_update := by
  induction ds with
  | nil =>
    intro acc h
    simpa using h
  | cons d rest ih =>
    intro acc hacc
    rw [List.foldl_cons]
    apply ih (fun d2 hd2 => hds d2 (List.mem_cons_of_mem _ hd2))
    have hd := hds d (List.mem_cons_self _ _)
    unfold classify_step
    cases d.action
    · simp only [sizes_sum, List.map_append, List.sum_append, List.map_cons,
        List.map_nil, List.sum_cons, List.sum_nil] at hacc ⊢
      simp [hacc, hd]
      ring
    · simp only [sizes_sum, List.map_append, List.sum_append, List.map_cons,
        List.map_nil, List.sum_cons, List.sum_nil] at hacc ⊢
      simp [hacc, hd]
      ring
    · simpa [sizes_sum] using hacc
    · simpa [sizes_sum] using hacc

theorem classify_fonts_total (installed : List (String × MEntry))
    (cands : List FontCand) :
    (classify_fonts installed cands).total_size_mb =
      sizes_sum (classify_fonts installed cands).fonts_to_sync +
      sizes_sum (classify_fonts installed cands).fonts_to_update := by
  unfold classify_fonts
  apply foldl_classify_total
  · intro d hd
    rcases List.mem_map.mp hd with ⟨f, _, rfl⟩
    rw [(check_font_diff_size installed f).1, (check_font_diff_size installed f).2]
  · simp [sizes_sum]

theorem free_mb_of_nonneg (st : StatVfs) : 0 ≤ free_mb_of st := by
  unfold free_mb_of
  positivity

/-- Claim C2: when the `statvfs` query at the install directory
completes and reports free space strictly below 1.1× the summed sizes
(MB) of the install+update candidates, the whole run aborts before any
copy: the copy-attempt list is empty and the persisted manifest is the
unchanged input manifest. -/
theorem c2_disk_space_gate (w : SyncWorld) (now : ℚ) (st : StatVfs)
    (hcfg : w.config_exists = true) (hload : w.config_load_ok = true)
    (hfolder : w.sync_folder.isNone = false) (hscan : w.scan_ok = true)
    (hstat : w.disk_stat = some st) (htotal : total_mb_of st ≠ 0)
    (hfree : free_mb_of st <
      (classify_fonts w.installed_fonts w.source_fonts).total_size_mb
        * (11 / 10)) :
    sync_command w now =
      ⟨⟨false, 0, 0, 0, ["disk_insufficient"]⟩, 1, w.installed_fonts, []⟩ := by
  have hfree0 : 0 ≤ free_mb_of st := free_mb_of_nonneg st
  have hreqpos : 0 <
      (classify_fonts w.installed_fonts w.source_fonts).total_size_mb
        * (11 / 10) := lt_of_le_of_lt hfree0 hfree
  have htotpos : 0 <
      (classify_fonts w.installed_fonts w.source_fonts).total_size_mb := by
    by_contra hc
    push_neg at hc
    nlinarith
  have hsrcne : ¬ (w.source_fonts = []) := by
    intro hsrc
    rw [hsrc] at htotpos
    norm_num [classify_fonts] at htotpos
  have hlenne : ¬ ((classify_fonts w.installed_fonts
        w.source_fonts).fonts_to_sync.length
      + (classify_fonts w.installed_fonts
        w.source_fonts).fonts_to_update.length = 0) := by
    intro hlen
    have h1 : (classify_fonts w.installed_fonts
        w.source_fonts).fonts_to_sync = [] :=
      List.length_eq_zero.mp (by omega)
    have h2 : (classify_fonts w.installed_fonts
        w.source_fonts).fonts_to_update = [] :=
      List.length_eq_zero.mp (by omega)
    have hinv := classify_fonts_total w.installed_fonts w.source_fonts
    rw [h1, h2] at hinv
    simp [sizes_sum] at hinv
    rw [hinv] at htotpos
    norm_num at htotpos
  have hdisk : (check_disk_space w.disk_stat
      ((classify_fonts w.installed_fonts w.source_fonts).total_size_mb
        * (11 / 10))).has_enough_space = false := by
    rw [hstat]
    simp only [check_disk_space]
    rw [if_neg htotal]
    simp only [decide_eq_false_iff_not, not_le]
    exact hfree
  unfold sync_command
  rw [if_neg (by simp [hcfg]), if_neg (by simp [hload]),
    if_neg (by simp [hfolder]), if_neg (by simp [hscan]),
    if_neg hsrcne, if_neg hlenne, if_pos hdisk]

/-- A run hitting the disk gate: one 100 MB install candidate, zero
free blocks at the install directory. -/
def diskGateWorld : SyncWorld :=
  { config_exists := true, config_load_ok := true,
    sync_folder := some "src", scan_ok := true,
    source_fonts := [⟨"A.otf", 100, false, false, some "hA"⟩],
    installed_fonts := [], disk_stat := some ⟨0, 4096, 10⟩,
    copy_fails := fun _ => false, copy_err_msg := fun _ => "",
    save_ok := true }

/-- Witness for C2 at the concrete gate-tripping run. -/
theorem c2_disk_space_gate_witness :
    sync_command diskGateWorld 7 =
      ⟨⟨false, 0, 0, 0, ["disk_insufficient"]⟩, 1, [], []⟩ := by
  have htot : (classify_fonts diskGateWorld.installed_fonts
      diskGateWorld.source_fonts).total_size_mb = 100 := by
    simp [diskGateWorld, classify_fonts, check_font_diff, classify_step,
      lookupA]
  apply c2_disk_space_gate diskGateWorld 7 ⟨0, 4096, 10⟩ rfl rfl rfl rfl rfl
  · norm_num [total_mb_of]
  · rw [htot]
    norm_num [free_mb_of]
